import Mathlib

/-!
Shallow embedding of the dbranch sources (joshuapassos/dbranch) for
verification of the specification's claims.

Conventions:
* Kernel interfaces (the FIEMAP ioctl, `copy_file_range`, TCP `bind`,
  `docker inspect`) are modelled as explicit oracle arguments: the embedded
  function receives the outcome the kernel would produce for each request.
* Rust `panic!` / `.unwrap()` on a failing value is modelled as the `.error`
  branch of an `Except` result, distinct from ordinary returned errors.
* Machine integers (`u64`, `u16`) are modelled as `Nat`; truncated
  subtraction matches the only subtraction the code performs on the
  non-wrapping path.
-/

namespace Dbranch

/-! ### src/fiemap.rs : flags, extents, `check_file` -/

/-- `FiemapFlags` from src/fiemap.rs (the `repr(u32)` enum). -/
inductive FiemapFlags where
  | last
  | unknown
  | delalloc
  | encoded
  | dataCrypted
  | notAligned
  | dataInline
  | dataTail
  | unwritten
  | merged
  | shared
  deriving DecidableEq, Repr

/-- The `u32` discriminant of each `FiemapFlags` variant. -/
def FiemapFlags.bits : FiemapFlags → Nat
  | .last => 0x00000001
  | .unknown => 0x00000002
  | .delalloc => 0x00000004
  | .encoded => 0x00000008
  | .dataCrypted => 0x00000080
  | .notAligned => 0x00000100
  | .dataInline => 0x00000200
  | .dataTail => 0x00000400
  | .unwritten => 0x00000800
  | .merged => 0x00001000
  | .shared => 0x00002000

/-- `FiemapFlags::from_bits` from src/fiemap.rs: decode a `u32` flag word
into the list of set flags, in the fixed source order. -/
def FiemapFlags.from_bits (flags : Nat) : List FiemapFlags :=
  (if flags &&& FiemapFlags.last.bits ≠ 0 then [FiemapFlags.last] else []) ++
  (if flags &&& FiemapFlags.unknown.bits ≠ 0 then [FiemapFlags.unknown] else []) ++
  (if flags &&& FiemapFlags.delalloc.bits ≠ 0 then [FiemapFlags.delalloc] else []) ++
  (if flags &&& FiemapFlags.encoded.bits ≠ 0 then [FiemapFlags.encoded] else []) ++
  (if flags &&& FiemapFlags.dataCrypted.bits ≠ 0 then [FiemapFlags.dataCrypted] else []) ++
  (if flags &&& FiemapFlags.notAligned.bits ≠ 0 then [FiemapFlags.notAligned] else []) ++
  (if flags &&& FiemapFlags.dataInline.bits ≠ 0 then [FiemapFlags.dataInline] else []) ++
  (if flags &&& FiemapFlags.dataTail.bits ≠ 0 then [FiemapFlags.dataTail] else []) ++
  (if flags &&& FiemapFlags.unwritten.bits ≠ 0 then [FiemapFlags.unwritten] else []) ++
  (if flags &&& FiemapFlags.merged.bits ≠ 0 then [FiemapFlags.merged] else []) ++
  (if flags &&& FiemapFlags.shared.bits ≠ 0 then [FiemapFlags.shared] else [])

/-- `FiemapExtent` from src/fiemap.rs (the reserved padding fields carry no
information and are dropped). -/
structure FiemapExtent where
  fe_logical : Nat
  fe_physical : Nat
  fe_length : Nat
  fe_flags : Nat
  deriving DecidableEq, Repr

/-- `Fiemap` from src/fiemap.rs: one extent paired with its decoded flags. -/
structure Fiemap where
  extent : FiemapExtent
  flags : List FiemapFlags
  deriving DecidableEq, Repr

/-- The body of the `for i in 0..fm_mapped_extents` loop of `check_file`:
push each mapped extent, stop after the first extent carrying the LAST flag
(without advancing the offset past it); otherwise advance the current offset
to `fe_logical + fe_length`.  Returns (pushed records, final offset,
`found_last`). -/
def processExtents : List FiemapExtent → Nat → List Fiemap × Nat × Bool
  | [], off => ([], off, false)
  | e :: rest, off =>
    if e.fe_flags &&& FiemapFlags.last.bits ≠ 0 then
      ([⟨e, FiemapFlags.from_bits e.fe_flags⟩], off, true)
    else
      let r := processExtents rest (e.fe_logical + e.fe_length)
      (⟨e, FiemapFlags.from_bits e.fe_flags⟩ :: r.1, r.2)

/-- One FIEMAP kernel call: given the request's start offset and length,
the kernel either fails (`.error`, modelling `ioctl` returning -1) or
returns the mapped extents (`fm_mapped_extents` entries of the 32-slot
array). -/
abbrev FiemapKernel := Nat → Nat → Except Unit (List FiemapExtent)

/-- The `loop` of `check_file` from src/fiemap.rs, as fuel-indexed
recursion (the Rust loop has no termination guarantee against an arbitrary
kernel, so exhausted fuel returns `none` = "still running").
On completion it returns the accumulated `Fiemap` records together with the
trace of `(fm_start, fm_length)` request pairs issued, in order. -/
def check_file_loop (kern : FiemapKernel) (file_size : Nat) :
    Nat → Nat → Except Unit (Option (List Fiemap × List (Nat × Nat)))
  | 0, _ => .ok none
  | fuel + 1, current_offset =>
    match kern current_offset (file_size - current_offset) with
    | .error e => .error e
    | .ok resp =>
      if resp.length = 0 then
        .ok (some ([], [(current_offset, file_size - current_offset)]))
      else if (processExtents resp current_offset).2.2 || decide (resp.length < 32) then
        .ok (some ((processExtents resp current_offset).1,
          [(current_offset, file_size - current_offset)]))
      else
        match check_file_loop kern file_size fuel (processExtents resp current_offset).2.1 with
        | .error e => .error e
        | .ok none => .ok none
        | .ok (some (res, calls)) =>
          .ok (some ((processExtents resp current_offset).1 ++ res,
            (current_offset, file_size - current_offset) :: calls))

/-- `check_file` from src/fiemap.rs, parameterized by the FIEMAP kernel
oracle and the file's size.  A zero-length file returns the empty list
without any kernel call; otherwise the loop starts at offset 0. -/
def check_file (kern : FiemapKernel) (file_size : Nat) (fuel : Nat) :
    Except Unit (Option (List Fiemap × List (Nat × Nat))) :=
  if file_size = 0 then .ok (some ([], []))
  else check_file_loop kern file_size fuel 0

/-- One loop step of `check_file` recursed exactly when the kernel mapped a
full batch of 32 extents none of which carried the LAST flag; the next
request then starts at `last_extent.fe_logical + last_extent.fe_length`. -/
def fiemap_step (kern : FiemapKernel) (c c' : Nat × Nat) : Prop :=
  ∃ resp, kern c.1 c.2 = .ok resp ∧ resp.length = 32 ∧
    (∀ e ∈ resp, e.fe_flags &&& FiemapFlags.last.bits = 0) ∧
    ∃ e, resp.getLast? = some e ∧ c'.1 = e.fe_logical + e.fe_length

/-- The final kernel call of `check_file` mapped zero extents, or fewer
than 32 extents, or an extent carrying the LAST flag. -/
def fiemap_terminator (kern : FiemapKernel) (c : Nat × Nat) : Prop :=
  ∃ resp, kern c.1 c.2 = .ok resp ∧
    (resp.length = 0 ∨ resp.length < 32 ∨
      ∃ e ∈ resp, e.fe_flags &&& FiemapFlags.last.bits ≠ 0)

theorem processExtents_cons (x : FiemapExtent) (rest : List FiemapExtent) (off : Nat) :
    processExtents (x :: rest) off =
      if x.fe_flags &&& FiemapFlags.last.bits ≠ 0 then
        ([⟨x, FiemapFlags.from_bits x.fe_flags⟩], off, true)
      else
        ((⟨x, FiemapFlags.from_bits x.fe_flags⟩ : Fiemap) ::
            (processExtents rest (x.fe_logical + x.fe_length)).1,
          (processExtents rest (x.fe_logical + x.fe_length)).2) := by
  simp only [processExtents]

theorem processExtents_found_last_eq_false (resp : List FiemapExtent) (off : Nat) :
    (processExtents resp off).2.2 = false ↔
      ∀ e ∈ resp, e.fe_flags &&& FiemapFlags.last.bits = 0 := by
  induction resp generalizing off with
  | nil => simp [processExtents]
  | cons x rest ih =>
    by_cases hx : x.fe_flags &&& FiemapFlags.last.bits = 0
    · rw [processExtents_cons, if_neg (by simp [hx])]
      simpa [hx] using ih (x.fe_logical + x.fe_length)
    · rw [processExtents_cons, if_pos hx]
      simp [hx]

theorem processExtents_offset (resp : List FiemapExtent) (off : Nat) (e : FiemapExtent)
    (hnl : ∀ x ∈ resp, x.fe_flags &&& FiemapFlags.last.bits = 0)
    (hlast : resp.getLast? = some e) :
    (processExtents resp off).2.1 = e.fe_logical + e.fe_length := by
  induction resp generalizing off with
  | nil => simp at hlast
  | cons x rest ih =>
    have hx : x.fe_flags &&& FiemapFlags.last.bits = 0 := hnl x (List.mem_cons_self _ _)
    rw [processExtents_cons, if_neg (by simp [hx])]
    cases rest with
    | nil =>
      simp at hlast
      subst hlast
      simp [processExtents]
    | cons y t =>
      rw [List.getLast?_cons_cons] at hlast
      exact ih (x.fe_logical + x.fe_length)
        (fun z hz => hnl z (List.mem_cons_of_mem _ hz)) hlast

theorem processExtents_mem (resp : List FiemapExtent) (off : Nat) (f : Fiemap)
    (hf : f ∈ (processExtents resp off).1) :
    ∃ e ∈ resp, f = ⟨e, FiemapFlags.from_bits e.fe_flags⟩ := by
  induction resp generalizing off with
  | nil => simp [processExtents] at hf
  | cons x rest ih =>
    by_cases hx : x.fe_flags &&& FiemapFlags.last.bits ≠ 0
    · rw [processExtents_cons, if_pos hx] at hf
      rcases List.mem_singleton.mp hf with hfe
      exact ⟨x, List.mem_cons_self _ _, hfe⟩
    · rw [processExtents_cons, if_neg hx] at hf
      rcases List.mem_cons.mp hf with hfe | hmem
      · exact ⟨x, List.mem_cons_self _ _, hfe⟩
      · obtain ⟨e, he, hfe⟩ := ih (x.fe_logical + x.fe_length) hmem
        exact ⟨e, List.mem_cons_of_mem _ he, hfe⟩

theorem check_file_loop_calls (kern : FiemapKernel) (fs : Nat)
    (hk : ∀ s l r, kern s l = .ok r → r.length ≤ 32) :
    ∀ fuel off res calls,
      check_file_loop kern fs fuel off = .ok (some (res, calls)) →
      calls.head? = some (off, fs - off) ∧
      (∀ c ∈ calls, c.2 = fs - c.1) ∧
      calls.Chain' (fiemap_step kern) ∧
      (∀ c, calls.getLast? = some c → fiemap_terminator kern c) := by
  intro fuel
  induction fuel with
  | zero => intro off res calls h; simp [check_file_loop] at h
  | succ fuel ih =>
    intro off res calls h
    rw [check_file_loop] at h
    split at h
    · exact absurd h (by simp)
    · rename_i resp hkr
      split at h
      · rename_i hz
        obtain ⟨hres, hcalls⟩ : res = [] ∧ calls = [(off, fs - off)] := by
          simpa [and_comm, eq_comm] using h
        subst hcalls
        refine ⟨rfl, by simp, by simp, ?_⟩
        intro c hc
        simp at hc
        subst hc
        exact ⟨resp, hkr, Or.inl hz⟩
      · rename_i hz
        split at h
        · rename_i hstop
          obtain ⟨hres, hcalls⟩ :
              res = (processExtents resp off).1 ∧ calls = [(off, fs - off)] := by
            simpa [and_comm, eq_comm] using h
          subst hcalls
          refine ⟨rfl, by simp, by simp, ?_⟩
          intro c hc
          simp at hc
          subst hc
          refine ⟨resp, hkr, ?_⟩
          rcases Bool.or_eq_true_iff.mp hstop with hlast | hshort
          · refine Or.inr (Or.inr ?_)
            by_contra hnone
            push_neg at hnone
            have := (processExtents_found_last_eq_false resp off).mpr
              (fun e he => by simpa using hnone e he)
            rw [hlast] at this
            exact absurd this (by simp)
          · exact Or.inr (Or.inl (by simpa using hshort))
        · rename_i hstop
          rw [Bool.or_eq_true_iff] at hstop
          push_neg at hstop
          obtain ⟨hnl, hlen32⟩ : (processExtents resp off).2.2 = false ∧ resp.length = 32 := by
            refine ⟨by simpa using hstop.1, ?_⟩
            have h32 : ¬ resp.length < 32 := by simpa using hstop.2
            exact le_antisymm (hk _ _ _ hkr) (le_of_not_lt h32)
          have hnolast : ∀ e ∈ resp, e.fe_flags &&& FiemapFlags.last.bits = 0 :=
            (processExtents_found_last_eq_false resp off).mp hnl
          split at h
          · exact absurd h (by simp)
          · exact absurd h (by simp)
          · rename_i res' calls' hrec
            obtain ⟨hres, hcalls⟩ :
                res = (processExtents resp off).1 ++ res' ∧
                  calls = (off, fs - off) :: calls' := by
              simpa [and_comm, eq_comm] using h
            subst hcalls
            obtain ⟨ihhead, ihall, ihchain, ihlast⟩ := ih _ _ _ hrec
            have hne : resp ≠ [] := by
              intro hnil; rw [hnil] at hlen32; simp at hlen32
            obtain ⟨elast, helast⟩ : ∃ e, resp.getLast? = some e := by
              cases hgl : resp.getLast? with
              | none => exact absurd (List.getLast?_eq_none_iff.mp hgl) hne
              | some e => exact ⟨e, rfl⟩
            have hoff : (processExtents resp off).2.1 =
                elast.fe_logical + elast.fe_length :=
              processExtents_offset resp off elast hnolast helast
            have hstep : fiemap_step kern (off, fs - off)
                ((processExtents resp off).2.1, fs - (processExtents resp off).2.1) :=
              ⟨resp, hkr, hlen32, hnolast, elast, helast, hoff⟩
            refine ⟨rfl, ?_, ?_, ?_⟩
            · intro c hc
              rcases List.mem_cons.mp hc with hc | hc
              · subst hc; rfl
              · exact ihall c hc
            · refine List.chain'_cons'.mpr ⟨?_, ihchain⟩
              intro b hb
              rw [ihhead] at hb
              cases hb
              exact hstep
            · intro c hc
              cases calls' with
              | nil => simp at ihhead
              | cons b t =>
                rw [List.getLast?_cons_cons] at hc
                exact ihlast c hc

theorem check_file_loop_flags (kern : FiemapKernel) (fs : Nat) (Q : FiemapExtent → Prop)
    (hQ : ∀ s l r, kern s l = .ok r → ∀ e ∈ r, Q e) :
    ∀ fuel off res calls,
      check_file_loop kern fs fuel off = .ok (some (res, calls)) →
      ∀ f ∈ res, Q f.extent ∧ f.flags = FiemapFlags.from_bits f.extent.fe_flags := by
  intro fuel
  induction fuel with
  | zero => intro off res calls h; simp [check_file_loop] at h
  | succ fuel ih =>
    intro off res calls h
    rw [check_file_loop] at h
    split at h
    · exact absurd h (by simp)
    · rename_i resp hkr
      split at h
      · obtain ⟨hres, _⟩ : res = [] ∧ calls = [(off, fs - off)] := by
          simpa [and_comm, eq_comm] using h
        subst hres
        simp
      · split at h
        · obtain ⟨hres, _⟩ :
              res = (processExtents resp off).1 ∧ calls = [(off, fs - off)] := by
            simpa [and_comm, eq_comm] using h
          subst hres
          intro f hf
          obtain ⟨e, he, hfe⟩ := processExtents_mem resp off f hf
          subst hfe
          exact ⟨hQ _ _ _ hkr e he, rfl⟩
        · split at h
          · exact absurd h (by simp)
          · exact absurd h (by simp)
          · rename_i res' calls' hrec
            obtain ⟨hres, _⟩ :
                res = (processExtents resp off).1 ++ res' ∧
                  calls = (off, fs - off) :: calls' := by
              simpa [and_comm, eq_comm] using h
            subst hres
            intro f hf
            rcases List.mem_append.mp hf with hf | hf
            · obtain ⟨e, he, hfe⟩ := processExtents_mem resp off f hf
              subst hfe
              exact ⟨hQ _ _ _ hkr e he, rfl⟩
            · exact ih _ _ _ hrec f hf

/-- The FIEMAP kernel oracle used as a concrete witness input: every request
maps a single extent carrying the LAST flag. -/
def kern0 : FiemapKernel := fun _ _ => .ok [⟨0, 4096, 5, FiemapFlags.last.bits⟩]

/-- C2: for every open regular file, `check_file` requests at most 32
extents per kernel call (the kernel maps at most the 32-slot batch, and a
batch of fewer than 32 mapped extents terminates the loop); the first call
starts at offset 0; every call requests length `file_size - fm_start`; the
loop recursed after a call exactly when that call mapped a full batch of 32
extents none carrying the LAST flag, and then the next call starts at
`last_extent.fe_logical + last_extent.fe_length` (`fiemap_step`); the final
call mapped zero extents, fewer than 32 extents, or an extent carrying the
LAST flag (`fiemap_terminator`); and a zero-length file yields the empty
list with an empty call trace. -/
theorem check_file_requests_spec (kern : FiemapKernel) (fs fuel : Nat)
    (hk : ∀ s l r, kern s l = .ok r → r.length ≤ 32) :
    (fs = 0 → check_file kern fs fuel = .ok (some ([], []))) ∧
    (∀ res calls, fs ≠ 0 → check_file kern fs fuel = .ok (some (res, calls)) →
      calls.head? = some (0, fs) ∧
      (∀ c ∈ calls, c.2 = fs - c.1) ∧
      calls.Chain' (fiemap_step kern) ∧
      (∀ c, calls.getLast? = some c → fiemap_terminator kern c)) := by
  constructor
  · intro h0
    simp [check_file, h0]
  · intro res calls hne h
    rw [check_file, if_neg hne] at h
    have hc := check_file_loop_calls kern fs hk fuel 0 res calls h
    simpa using hc

/-- Witness for C2 at the concrete oracle `kern0` on a file of size 5 with
fuel 1: one call at (0, 5), terminated by the LAST flag. -/
theorem check_file_requests_spec_witness :
    check_file kern0 5 1 =
      .ok (some ([⟨⟨0, 4096, 5, FiemapFlags.last.bits⟩, [FiemapFlags.last]⟩], [(0, 5)])) ∧
    ([((0 : Nat), (5 : Nat))].head? = some (0, 5) ∧
      fiemap_terminator kern0 (0, 5)) := by
  have hk : ∀ s l r, kern0 s l = .ok r → r.length ≤ 32 := by
    intro s l r h
    simp only [kern0] at h
    injection h with h
    subst h
    simp
  have hcf : check_file kern0 5 1 =
      .ok (some ([⟨⟨0, 4096, 5, FiemapFlags.last.bits⟩, [FiemapFlags.last]⟩], [(0, 5)])) := by
    rfl
  have h := (check_file_requests_spec kern0 5 1 hk).2 _ _ (by decide) hcf
  exact ⟨hcf, h.1, h.2.2.2 (0, 5) rfl⟩

/-! ### src/error.rs : `AppError` -/

/-- `AppError` from src/error.rs. -/
inductive AppError where
  | Internal (message : String)
  | Config (message : String)
  | ConfigParsing (message : String)
  | FileSystem (message : String)
  | FileNotFound (path : String)
  | ProjectAlreadyExists (name : String)
  | ProjectNotFound (name : String)
  | DefaultProjectNotFound
  | BranchAlreadyExists (name : String)
  | BranchNotFound (name : String)
  | Database (message : String)
  | NoPortAvailable (min max : Nat)
  | Network (message : String)
  | Auth (message : String)
  | Permission (message : String)
  | Btrfs (message : String)
  | DiskMount (message : String)
  | Docker (message : String)
  | NotImplemented (command : String)
  deriving DecidableEq, Repr

/-! ### src/config.rs : `Config::get_valid_port` and its caller in Init -/

/-- Outcome of `TcpListener::bind(("127.0.0.1", port))`: `true` when the
bind succeeds (the probe listener is dropped immediately after the check). -/
abbrev BindOracle := Nat → Bool

/-- The `for port in self.port_range.0..=self.port_range.1` loop of
`Config::get_valid_port`, unrolled as recursion on the number of remaining
ports: return the first port whose bind succeeds. -/
def get_valid_port_loop (bindable : BindOracle) : Nat → Nat → Option Nat
  | _, 0 => none
  | port, n + 1 =>
    if bindable port then some port else get_valid_port_loop bindable (port + 1) n

/-- `Config::get_valid_port` from src/config.rs: scan the inclusive window
`port_range.1 ..= port_range.2` upward, returning the first bindable port,
`none` when the window is exhausted. -/
def get_valid_port (bindable : BindOracle) (port_range : Nat × Nat) : Option Nat :=
  get_valid_port_loop bindable port_range.1 (port_range.2 + 1 - port_range.1)

/-- The port-resolution step of `Commands::Init` in src/cli.rs:
`get_valid_port().ok_or(NoPortAvailable { min, max })?`. -/
def init_port_resolution (bindable : BindOracle) (port_range : Nat × Nat) :
    Except AppError Nat :=
  match get_valid_port bindable port_range with
  | some p => .ok p
  | none => .error (.NoPortAvailable port_range.1 port_range.2)

theorem get_valid_port_loop_some (bindable : BindOracle) :
    ∀ n start p, get_valid_port_loop bindable start n = some p →
      start ≤ p ∧ p < start + n ∧ bindable p = true ∧
      ∀ q, start ≤ q → q < p → bindable q = false := by
  intro n
  induction n with
  | zero => intro start p h; simp [get_valid_port_loop] at h
  | succ n ih =>
    intro start p h
    rw [get_valid_port_loop] at h
    by_cases hb : bindable start
    · rw [if_pos hb] at h
      cases h
      exact ⟨le_refl _, by omega, hb, fun q hq hq' => absurd hq' (by omega)⟩
    · rw [if_neg hb] at h
      obtain ⟨h1, h2, h3, h4⟩ := ih (start + 1) p h
      refine ⟨by omega, by omega, h3, ?_⟩
      intro q hq hq'
      rcases Nat.eq_or_lt_of_le hq with hq | hq
      · subst hq; exact Bool.eq_false_iff.mpr hb
      · exact h4 q (by omega) hq'

theorem get_valid_port_loop_none (bindable : BindOracle) :
    ∀ n start, get_valid_port_loop bindable start n = none ↔
      ∀ q, start ≤ q → q < start + n → bindable q = false := by
  intro n
  induction n with
  | zero =>
    intro start
    simp only [get_valid_port_loop, true_iff]
    intro q h1 h2
    omega
  | succ n ih =>
    intro start
    rw [get_valid_port_loop]
    by_cases hb : bindable start
    · rw [if_pos hb]
      constructor
      · intro h; exact absurd h (by simp)
      · intro hall
        have := hall start (le_refl _) (by omega)
        simp [hb] at this
    · rw [if_neg hb]
      rw [ih (start + 1)]
      constructor
      · intro hall q hq hq'
        rcases Nat.eq_or_lt_of_le hq with hq | hq
        · subst hq; exact Bool.eq_false_iff.mpr hb
        · exact hall q (by omega) (by omega)
      · intro hall q hq hq'
        exact hall q (by omega) (by omega)

/-- C6: `get_valid_port` scans the window in ascending order and returns the
first port in `[port_min, port_max]` whose TCP bind to 127.0.0.1 succeeds
(every smaller in-window port failed to bind); it is `none` exactly when no
port in the window is bindable, and `Commands::Init` then surfaces
`NoPortAvailable` carrying the window bounds; on success Init uses the
returned port. -/
theorem get_valid_port_spec (bindable : BindOracle) (pmin pmax : Nat) :
    (∀ p, get_valid_port bindable (pmin, pmax) = some p →
      pmin ≤ p ∧ p ≤ pmax ∧ bindable p = true ∧
      (∀ q, pmin ≤ q → q < p → bindable q = false) ∧
      init_port_resolution bindable (pmin, pmax) = .ok p) ∧
    (get_valid_port bindable (pmin, pmax) = none ↔
      ∀ q, pmin ≤ q → q ≤ pmax → bindable q = false) ∧
    (get_valid_port bindable (pmin, pmax) = none →
      init_port_resolution bindable (pmin, pmax) =
        .error (.NoPortAvailable pmin pmax)) := by
  refine ⟨?_, ?_, ?_⟩
  · intro p h
    obtain ⟨h1, h2, h3, h4⟩ := get_valid_port_loop_some bindable _ _ _ h
    refine ⟨h1, by omega, h3, h4, ?_⟩
    simp [init_port_resolution, h]
  · rw [show get_valid_port bindable (pmin, pmax) =
      get_valid_port_loop bindable pmin (pmax + 1 - pmin) from rfl]
    rw [get_valid_port_loop_none]
    constructor
    · intro hall q hq hq'; exact hall q hq (by omega)
    · intro hall q hq hq'; exact hall q hq (by omega)
  · intro h
    simp [init_port_resolution, h]

/-- The bind oracle used as a concrete witness input: only port 7001 binds. -/
def bindable0 : BindOracle := fun q => q == 7001

/-- Witness for C6: on the window (7000, 7999) with only port 7001 bindable,
`get_valid_port` returns 7001, inside the window, and Init uses it. -/
theorem get_valid_port_spec_witness :
    get_valid_port bindable0 (7000, 7999) = some 7001 ∧
    (7000 ≤ 7001 ∧ 7001 ≤ 7999 ∧ bindable0 7001 = true ∧
      (∀ q, 7000 ≤ q → q < 7001 → bindable0 q = false) ∧
      init_port_resolution bindable0 (7000, 7999) = .ok 7001) := by
  have h : get_valid_port bindable0 (7000, 7999) = some 7001 := by rfl
  exact ⟨h, (get_valid_port_spec bindable0 7000 7999).1 7001 h⟩

/-! ### src/cli.rs data model, src/config.rs : `Config::set_active_branch` -/

/-- `Branch` from src/cli.rs (`created_at` is modelled as a plain timestamp
number). -/
structure Branch where
  name : String
  port : Nat
  created_at : Nat
  deriving DecidableEq, Repr

/-- `Project` from src/cli.rs. -/
structure Project where
  name : String
  path : String
  active_branch : Option String
  port : Nat
  created_at : Nat
  branches : List Branch
  deriving DecidableEq, Repr

/-- `Config::set_active_branch` from src/config.rs, acting on the project's
persisted metadata document: when `branch_name` names an existing branch or
is the literal "main", store the active branch (`none` representing "main")
and save; otherwise return `BranchNotFound` without saving. -/
def set_active_branch (project : Project) (branch_name : String) :
    Except AppError Project :=
  if project.branches.any (fun b => b.name == branch_name) || branch_name == "main" then
    .ok { project with
          active_branch := if branch_name == "main" then none else some branch_name }
  else
    .error (.BranchNotFound branch_name)

/-- C7: `set_active_branch` succeeds iff the name is an existing branch or
the literal "main"; "main" is persisted as `active_branch = none`; another
existing branch is persisted as `some name`; an unknown name returns
`BranchNotFound` (on which no metadata write happens: the save step is only
reached on the `.ok` path). -/
theorem set_active_branch_spec (project : Project) (branch_name : String) :
    ((∃ p', set_active_branch project branch_name = .ok p') ↔
      (∃ b ∈ project.branches, b.name = branch_name) ∨ branch_name = "main") ∧
    (branch_name = "main" →
      set_active_branch project branch_name =
        .ok { project with active_branch := none }) ∧
    (branch_name ≠ "main" → (∃ b ∈ project.branches, b.name = branch_name) →
      set_active_branch project branch_name =
        .ok { project with active_branch := some branch_name }) ∧
    ((∀ b ∈ project.branches, b.name ≠ branch_name) → branch_name ≠ "main" →
      set_active_branch project branch_name =
        .error (.BranchNotFound branch_name)) := by
  refine ⟨?_, ?_, ?_, ?_⟩
  · constructor
    · intro ⟨p', hp'⟩
      rw [set_active_branch] at hp'
      by_cases hc : (project.branches.any (fun b => b.name == branch_name)
          || branch_name == "main") = true
      · rcases Bool.or_eq_true_iff.mp hc with hc | hc
        · obtain ⟨b, hb, hbn⟩ := List.any_eq_true.mp hc
          exact Or.inl ⟨b, hb, by simpa using hbn⟩
        · exact Or.inr (by simpa using hc)
      · rw [if_neg hc] at hp'
        exact absurd hp' (by simp)
    · intro h
      rw [set_active_branch]
      have hc : (project.branches.any (fun b => b.name == branch_name)
          || branch_name == "main") = true := by
        rcases h with ⟨b, hb, hbn⟩ | h
        · exact Bool.or_eq_true_iff.mpr
            (Or.inl (List.any_eq_true.mpr ⟨b, hb, by simpa using hbn⟩))
        · exact Bool.or_eq_true_iff.mpr (Or.inr (by simpa using h))
      rw [if_pos hc]
      exact ⟨_, rfl⟩
  · intro h
    subst h
    rw [set_active_branch]
    rw [if_pos (Bool.or_eq_true_iff.mpr (Or.inr (by simp)))]
    simp
  · intro hne ⟨b, hb, hbn⟩
    rw [set_active_branch]
    rw [if_pos (Bool.or_eq_true_iff.mpr
      (Or.inl (List.any_eq_true.mpr ⟨b, hb, by simpa using hbn⟩)))]
    simp [hne]
  · intro hall hne
    rw [set_active_branch, if_neg]
    simp only [Bool.or_eq_true_iff, not_or, List.any_eq_true]
    constructor
    · intro ⟨b, hb, hbn⟩
      exact hall b hb (by simpa using hbn)
    · simpa using hne

/-- The project used as a concrete witness input for C7. -/
def project0 : Project :=
  { name := "demo", path := "/cfg/demo", active_branch := none,
    port := 7000, created_at := 0,
    branches := [{ name := "feature", port := 7001, created_at := 0 }] }

/-- Witness for C7 at `project0`: switching to the existing branch
"feature" persists `some "feature"`, and switching to the unknown branch
"gone" returns `BranchNotFound`. -/
theorem set_active_branch_spec_witness :
    set_active_branch project0 "feature" =
      .ok { project0 with active_branch := some "feature" } ∧
    set_active_branch project0 "gone" = .error (.BranchNotFound "gone") := by
  constructor
  · exact (set_active_branch_spec project0 "feature").2.2.1 (by decide)
      ⟨{ name := "feature", port := 7001, created_at := 0 }, by simp [project0], rfl⟩
  · exact (set_active_branch_spec project0 "gone").2.2.2
      (by intro b hb; simp [project0] at hb; subst hb; decide) (by decide)

/-! ### src/database_operator.rs : `PostgresOperator::is_container_running` -/

/-- The stdout/success part of a container-runtime command outcome. -/
structure InspectOutput where
  success : Bool
  stdout : String
  deriving DecidableEq, Repr

/-- Rust `str::contains` on string literals: substring containment. -/
def contains_substring (s pat : String) : Bool :=
  decide (pat.toList <:+: s.toList)

/-- `PostgresOperator::is_container_running` from src/database_operator.rs,
parameterized by the outcome of `InspectCommand::new(name).execute()`:
`Ok(true)` iff the inspect command succeeded with non-empty stdout
containing `"Running":true` (with or without a space); `Ok(false)` in every
other case, including command failure. -/
def is_container_running (inspect_output : Except Unit InspectOutput) :
    Except AppError Bool :=
  match inspect_output with
  | .ok output =>
    if output.success && !output.stdout.isEmpty then
      .ok (contains_substring output.stdout "\"Running\":true" ||
        contains_substring output.stdout "\"Running\": true")
    else
      .ok false
  | .error _ => .ok false

/-- C10: `is_container_running` is total over inspect outcomes — it always
returns `Ok`, with `true` exactly when the inspect command succeeded with a
non-empty payload containing a `Running` field set to `true` (either
spelling the runtime emits), and `false` whenever the command failed,
errored, or produced empty output. -/
theorem is_container_running_total (o : Except Unit InspectOutput) :
    (∃ b, is_container_running o = .ok b) ∧
    (is_container_running o = .ok true ↔
      ∃ output, o = .ok output ∧ output.success = true ∧
        output.stdout.isEmpty = false ∧
        (contains_substring output.stdout "\"Running\":true" = true ∨
          contains_substring output.stdout "\"Running\": true" = true)) ∧
    (∀ e, o = .error e → is_container_running o = .ok false) ∧
    (∀ output, o = .ok output →
      output.success = false ∨ output.stdout.isEmpty = true →
      is_container_running o = .ok false) := by
  refine ⟨?_, ?_, ?_, ?_⟩
  · cases o with
    | error e => exact ⟨false, rfl⟩
    | ok output =>
      rw [is_container_running]
      by_cases hc : (output.success && !output.stdout.isEmpty) = true
      · rw [if_pos hc]; exact ⟨_, rfl⟩
      · rw [if_neg hc]; exact ⟨false, rfl⟩
  · cases o with
    | error e => simp [is_container_running]
    | ok output =>
      rw [is_container_running]
      by_cases hc : (output.success && !output.stdout.isEmpty) = true
      · rw [if_pos hc]
        obtain ⟨hs, hne⟩ := Bool.and_eq_true_iff.mp hc
        constructor
        · intro h
          refine ⟨output, rfl, hs, by simpa using hne, ?_⟩
          have : (contains_substring output.stdout "\"Running\":true" ||
              contains_substring output.stdout "\"Running\": true") = true := by
            simpa using h
          exact Bool.or_eq_true_iff.mp this
        · intro ⟨output', ho, _, _, hor⟩
          cases ho
          have : (contains_substring output.stdout "\"Running\":true" ||
              contains_substring output.stdout "\"Running\": true") = true :=
            Bool.or_eq_true_iff.mpr hor
          simp [this]
      · rw [if_neg hc]
        constructor
        · intro h; exact absurd h (by simp)
        · intro ⟨output', ho, hs, hne, _⟩
          cases ho
          exact absurd (by simp [hs, hne] : (output.success &&
            !output.stdout.isEmpty) = true) hc
  · intro e he; subst he; rfl
  · intro output ho hf
    subst ho
    rw [is_container_running, if_neg]
    rcases hf with hf | hf <;> simp [hf]

/-- Witness for C10: a successful inspect whose payload contains
`"Running": true` reports `Ok(true)`; a failed inspect command reports
`Ok(false)`. -/
theorem is_container_running_total_witness :
    is_container_running (.ok ⟨true, "\"Running\": true"⟩) = .ok true ∧
    is_container_running (.error ()) = .ok false := by
  constructor
  · exact (is_container_running_total (.ok ⟨true, "\"Running\": true"⟩)).2.1.mpr
      ⟨⟨true, "\"Running\": true"⟩, rfl, rfl, by decide, Or.inr (by decide)⟩
  · exact (is_container_running_total (.error ())).2.2.1 () rfl

/-! ### src/fiemap.rs : `get_folder_size` over a modelled directory tree -/

/-- A directory tree as `get_folder_size` observes it: each regular file
carries its `fs::metadata` size and the outcome that `check_file` produces
for it (the per-file FIEMAP result is the kernel-side input of the walk). -/
inductive FsTree where
  | file (name : String) (size : Nat) (check : Except Unit (List Fiemap))
  | dir (name : String) (entries : List FsTree)
  deriving Repr

/-- `FileInfo` from src/fiemap.rs. -/
structure FileInfo where
  real_size : Nat
  shared_size : Nat
  is_compressed : Bool
  name : String
  deriving DecidableEq, Repr

/-- `FolderInfo` from src/fiemap.rs. -/
structure FolderInfo where
  logical_size : Nat
  shared_size : Nat
  files : List FileInfo
  deriving DecidableEq, Repr

/-- The shared-bytes sum of one file's extent records:
`iter().filter(|f| f.flags.contains(&Shared)).map(|f| f.extent.fe_length).sum()`. -/
def shared_sum (file_info : List Fiemap) : Nat :=
  ((file_info.filter (fun f => f.flags.contains FiemapFlags.shared)).map
    (fun f => f.extent.fe_length)).sum

mutual

/-- `get_folder_size` from src/fiemap.rs.  A non-directory path returns
`None` without touching the file; a directory walks its entries.  The
`.error` result models the panic of the `file_info.as_ref().unwrap()`
calls when `check_file` failed on a regular file. -/
def get_folder_size : FsTree → Except Unit (Option FolderInfo)
  | .file _ _ _ => .ok none
  | .dir _ entries =>
    match get_folder_entries entries with
    | .error e => .error e
    | .ok fi => .ok (some fi)

/-- The `for entry in fs::read_dir(path)` body of `get_folder_size`,
accumulating sizes and file records over the entries in order. -/
def get_folder_entries : List FsTree → Except Unit FolderInfo
  | [] => .ok { logical_size := 0, shared_size := 0, files := [] }
  | .dir n sub :: rest =>
    match get_folder_size (.dir n sub) with
    | .error e => .error e
    | .ok none => get_folder_entries rest
    | .ok (some subfolder) =>
      match get_folder_entries rest with
      | .error e => .error e
      | .ok fi =>
        .ok { logical_size := subfolder.logical_size + fi.logical_size,
              shared_size := subfolder.shared_size + fi.shared_size,
              files := subfolder.files ++ fi.files }
  | .file fname fsize check :: rest =>
    match check with
    | .error e => .error e
    | .ok file_info =>
      match get_folder_entries rest with
      | .error e => .error e
      | .ok fi =>
        .ok { logical_size := fsize + fi.logical_size,
              shared_size := shared_sum file_info + fi.shared_size,
              files := { real_size := fsize,
                         shared_size := shared_sum file_info,
                         is_compressed :=
                           file_info.any (fun f => f.flags.contains FiemapFlags.encoded),
                         name := fname } :: fi.files }

end

mutual

/-- Whether a subtree contains (transitively) a regular file whose
`check_file` outcome is an error. -/
def hasErrFile : FsTree → Bool
  | .file _ _ check => match check with | .error _ => true | .ok _ => false
  | .dir _ entries => hasErrFileList entries

/-- `hasErrFile` over a list of entries. -/
def hasErrFileList : List FsTree → Bool
  | [] => false
  | t :: rest => hasErrFile t || hasErrFileList rest

end

theorem get_folder_entries_error_iff :
    ∀ n es, sizeOf es ≤ n →
      (get_folder_entries es = .error () ↔ hasErrFileList es = true) := by
  intro n
  induction n with
  | zero =>
    intro es h
    exact absurd h (by cases es <;> simp)
  | succ n ih =>
    intro es h
    cases es with
    | nil => simp [get_folder_entries, hasErrFileList]
    | cons t rest =>
      cases t with
      | file fname fsize check =>
        have hrest_le : sizeOf rest ≤ n := by
          simp only [List.cons.sizeOf_spec, FsTree.file.sizeOf_spec] at h
          omega
        cases check with
        | error e =>
          cases e
          simp [get_folder_entries, hasErrFileList, hasErrFile]
        | ok file_info =>
          rw [get_folder_entries]
          rw [show hasErrFileList (FsTree.file fname fsize (.ok file_info) :: rest) =
            hasErrFileList rest by simp [hasErrFileList, hasErrFile]]
          rw [← ih rest hrest_le]
          cases hrest : get_folder_entries rest with
          | error e => cases e; simp
          | ok fi => simp
      | dir n' sub =>
        have hsub_le : sizeOf sub ≤ n := by
          simp only [List.cons.sizeOf_spec, FsTree.dir.sizeOf_spec] at h
          omega
        have hrest_le : sizeOf rest ≤ n := by
          simp only [List.cons.sizeOf_spec, FsTree.dir.sizeOf_spec] at h
          omega
        rw [get_folder_entries]
        rw [show hasErrFileList (FsTree.dir n' sub :: rest) =
          (hasErrFileList sub || hasErrFileList rest) by
            simp [hasErrFileList, hasErrFile]]
        rw [get_folder_size]
        cases hsub : get_folder_entries sub with
        | error e =>
          cases e
          have hsubtrue : hasErrFileList sub = true := (ih sub hsub_le).mp hsub
          simp [hsubtrue]
        | ok subfi =>
          have hsubfalse : hasErrFileList sub = false := by
            have h' := ih sub hsub_le
            rw [hsub] at h'
            simpa using h'
          cases hrest : get_folder_entries rest with
          | error e =>
            cases e
            have hresttrue : hasErrFileList rest = true := (ih rest hrest_le).mp hrest
            simp [hresttrue]
          | ok fi =>
            have hrestfalse : hasErrFileList rest = false := by
              have h' := ih rest hrest_le
              rw [hrest] at h'
              simpa using h'
            simp [hsubfalse, hrestfalse]

/-- C3 (amended): a kernel extent-query error on a regular file anywhere in
the walked tree makes `get_folder_size` panic (the walk aborts via the
`unwrap` of the failed `check_file` result); the walk completes exactly
when no visited regular file's extent query failed. -/
theorem get_folder_size_error_on_check_failure (name : String) (entries : List FsTree) :
    get_folder_size (.dir name entries) = .error () ↔
      hasErrFileList entries = true := by
  rw [get_folder_size]
  cases hes : get_folder_entries entries with
  | error e =>
    cases e
    simp [(get_folder_entries_error_iff (sizeOf entries) entries (le_refl _)).mp hes]
  | ok fi =>
    have hfalse : hasErrFileList entries = false := by
      have h' := get_folder_entries_error_iff (sizeOf entries) entries (le_refl _)
      rw [hes] at h'
      simpa using h'
    simp [hfalse]

/-- The directory used as concrete input for C3: one file with a failing
extent query followed by one healthy file. -/
def errTree : FsTree :=
  .dir "branch" [.file "bad" 4 (.error ()), .file "good" 4 (.ok [])]

/-- Counterexample to C3 as stated: on `errTree` the walk does not record
zero shared bytes for the failing file and continue — it aborts with a
panic, returning no `FolderInfo` at all. -/
theorem get_folder_size_panics_counterexample :
    get_folder_size errTree = .error () ∧
    ∀ fi : Option FolderInfo, get_folder_size errTree ≠ .ok fi := by
  have h : get_folder_size errTree = .error () := by
    simp [errTree, get_folder_size, get_folder_entries]
  exact ⟨h, fun fi hfi => by rw [h] at hfi; exact absurd hfi (by simp)⟩

/-! ### src/main.rs : `run_server` backend-port resolution -/

/-- The per-connection backend-port resolution of `run_server` in
src/main.rs, as a function of the project snapshot read after `accept`:
with an active branch set, find it among the snapshot's branches and
`unwrap` its port — a branch that is not found makes the `unwrap` panic
(`.error`), aborting the accept loop; with no active branch, forward to the
project's own (main) port. -/
def resolve_target_port (project : Project) : Except Unit Nat :=
  match project.active_branch with
  | some branch_name =>
    match (project.branches.find? (fun b => b.name == branch_name)).map
        (fun b => b.port) with
    | some port => .ok port
    | none => .error ()
  | none => .ok project.port

/-- C4 (amended): the backend port is resolved from the snapshot taken at
accept time — no active branch resolves to the project's main port, an
active branch present in the snapshot resolves to that branch's port, but
an active branch missing from the snapshot makes the resolution `unwrap`
panic, aborting the proxy accept loop instead of closing only that
connection. -/
theorem resolve_target_port_spec (project : Project) :
    (project.active_branch = none →
      resolve_target_port project = .ok project.port) ∧
    (∀ name b, project.active_branch = some name →
      project.branches.find? (fun b' => b'.name == name) = some b →
      resolve_target_port project = .ok b.port) ∧
    (∀ name, project.active_branch = some name →
      (∀ b ∈ project.branches, b.name ≠ name) →
      resolve_target_port project = .error ()) := by
  refine ⟨?_, ?_, ?_⟩
  · intro h
    rw [resolve_target_port, h]
  · intro name b h hfind
    simp [resolve_target_port, h, hfind]
  · intro name h hall
    have hfind : project.branches.find? (fun b' => b'.name == name) = none := by
      rw [List.find?_eq_none]
      intro b hb
      simpa using hall b hb
    simp [resolve_target_port, h, hfind]

/-- Counterexample to C4 as stated: with the active branch set to a name
absent from the snapshot's branches, the resolution step panics (it does
not close the connection and continue accepting). -/
theorem resolve_target_port_counterexample :
    resolve_target_port
        { name := "demo", path := "/cfg/demo", active_branch := some "gone",
          port := 7000, created_at := 0, branches := [] } = .error () ∧
    ∀ p : Nat, resolve_target_port
        { name := "demo", path := "/cfg/demo", active_branch := some "gone",
          port := 7000, created_at := 0, branches := [] } ≠ .ok p := by
  refine ⟨rfl, ?_⟩
  intro p h
  rw [show resolve_target_port
      { name := "demo", path := "/cfg/demo", active_branch := some "gone",
        port := 7000, created_at := 0, branches := [] } = .error () from rfl] at h
  exact absurd h (by simp)

/-- Witness for C4 at concrete snapshots: no active branch forwards to the
main port; an existing active branch forwards to its own port. -/
theorem resolve_target_port_spec_witness :
    resolve_target_port
        { name := "demo", path := "/cfg/demo", active_branch := none,
          port := 7000, created_at := 0, branches := [] } = .ok 7000 ∧
    resolve_target_port
        { name := "demo", path := "/cfg/demo", active_branch := some "feat",
          port := 7000, created_at := 0,
          branches := [{ name := "feat", port := 7002, created_at := 0 }] } =
      .ok 7002 := by
  constructor
  · exact (resolve_target_port_spec _).1 rfl
  · exact (resolve_target_port_spec _).2.1 "feat"
      { name := "feat", port := 7002, created_at := 0 } rfl rfl

/-! ### src/cli.rs : `Commands::DeleteProject` over the persisted config -/

/-- The persisted configuration state that `delete-project` reads and
mutates: the `projects` list of the config document, the optional default
project, and the per-project `metadata.json` documents. The container
removals, lazy unmount and disk cleanup of the Rust handler act on host
resources outside this state (and their failures are downgraded to
log-and-continue), so they do not appear here. -/
structure ConfigState where
  projects : List String
  default_project : Option String
  metadata : List (String × Project)
  deriving DecidableEq, Repr

/-- `Config::get_project_info` from src/config.rs restricted to a named
project: read that project's metadata document if present. -/
def get_project_info (st : ConfigState) (name : String) : Option Project :=
  st.metadata.lookup name

/-- `Config::remove_project` from src/config.rs: error with
`ProjectNotFound` unless the name is listed; otherwise retain the other
projects, remove the project directory (its metadata document), and save. -/
def remove_project (st : ConfigState) (name : String) : Except AppError ConfigState :=
  if st.projects.contains name then
    .ok { st with
          projects := st.projects.filter (fun p => p != name),
          metadata := st.metadata.filter (fun kv => kv.1 != name) }
  else
    .error (.ProjectNotFound name)

/-- The `Commands::DeleteProject` arm of `CliHandler::handle_command` in
src/cli.rs: reject unknown projects, require the metadata document, run the
best-effort host cleanups (no effect on this state), remove the project
from the config, and unset the default project if it pointed here. -/
def handle_delete_project (st : ConfigState) (name : String) :
    Except AppError ConfigState :=
  if st.projects.contains name then
    match get_project_info st name with
    | none => .error (.ProjectNotFound name)
    | some _project =>
      match remove_project st name with
      | .error e => .error e
      | .ok st' =>
        if st'.default_project == some name then
          .ok { st' with default_project := none }
        else
          .ok st'
  else
    .error (.ProjectNotFound name)

/-- C5 (amended): `delete-project` is not idempotent — after a successful
`delete-project p` the project is gone from the config, and a second
invocation fails with `ProjectNotFound` (returning an error, not success;
the state is not touched again). -/
theorem handle_delete_project_ok_shape (st : ConfigState) (name : String)
    (hc : st.projects.contains name = true) (proj : Project)
    (hgp : get_project_info st name = some proj) :
    handle_delete_project st name =
      if st.default_project == some name then
        .ok { projects := st.projects.filter (fun p => p != name),
              default_project := none,
              metadata := st.metadata.filter (fun kv => kv.1 != name) }
      else
        .ok { projects := st.projects.filter (fun p => p != name),
              default_project := st.default_project,
              metadata := st.metadata.filter (fun kv => kv.1 != name) } := by
  rw [handle_delete_project, if_pos hc, hgp, remove_project, if_pos hc]

theorem filter_bne_contains_false (l : List String) (name : String) :
    (l.filter (fun p => p != name)).contains name = false := by
  rw [List.contains_eq_any_beq, Bool.eq_false_iff]
  intro hany
  obtain ⟨p, hp, hpeq⟩ := List.any_eq_true.mp hany
  obtain ⟨hpmem, hpkeep⟩ := List.mem_filter.mp hp
  rw [beq_iff_eq] at hpeq
  subst hpeq
  simp at hpkeep

theorem handle_delete_project_second_call_fails (st : ConfigState) (name : String)
    (st' : ConfigState) (h : handle_delete_project st name = .ok st') :
    st'.projects.contains name = false ∧
    handle_delete_project st' name = .error (.ProjectNotFound name) := by
  have hproj : st'.projects = st.projects.filter (fun p => p != name) := by
    by_cases hc : st.projects.contains name = true
    · cases hgp : get_project_info st name with
      | none =>
        rw [handle_delete_project, if_pos hc, hgp] at h
        exact absurd h (by simp)
      | some proj =>
        rw [handle_delete_project_ok_shape st name hc proj hgp] at h
        by_cases hd : (st.default_project == some name) = true
        · rw [if_pos hd] at h
          cases h
          rfl
        · rw [if_neg hd] at h
          cases h
          rfl
    · rw [handle_delete_project, if_neg hc] at h
      exact absurd h (by simp)
  have hcontains : st'.projects.contains name = false := by
    rw [hproj]
    exact filter_bne_contains_false _ _
  refine ⟨hcontains, ?_⟩
  have hnc : ¬(st'.projects.contains name = true) := by
    rw [hcontains]
    simp
  rw [handle_delete_project, if_neg hnc]

/-- The configuration state used as concrete input for C5: one project "p"
which is also the default project. -/
def st0 : ConfigState :=
  { projects := ["p"],
    default_project := some "p",
    metadata := [("p",
      { name := "p", path := "/cfg/p", active_branch := none,
        port := 7000, created_at := 0, branches := [] })] }

/-- Counterexample to C5 as stated: the first `delete-project p` on `st0`
succeeds, and the second invocation returns `ProjectNotFound` rather than
success. -/
theorem handle_delete_project_counterexample :
    handle_delete_project st0 "p" =
      .ok { projects := [], default_project := none, metadata := [] } ∧
    handle_delete_project
        { projects := [], default_project := none, metadata := [] } "p" =
      .error (.ProjectNotFound "p") := by
  constructor <;> rfl

/-- Witness for C5 applying the amended theorem at `st0`. -/
theorem handle_delete_project_second_call_fails_witness :
    (List.contains ([] : List String) "p" = false ∧
      handle_delete_project
          { projects := [], default_project := none, metadata := [] } "p" =
        .error (.ProjectNotFound "p")) := by
  exact handle_delete_project_second_call_fails st0 "p"
    { projects := [], default_project := none, metadata := [] } rfl

/-! ### src/config.rs : `Config::from_env` / `Config::from_file` -/

/-- `Approach` from src/config.rs (serialized as NEW_DISK / EXISTING_DISK). -/
inductive Approach where
  | NewDisk
  | ExistingDisk
  deriving DecidableEq, Repr

/-- `PostgresConfig` from src/config.rs. -/
structure PostgresConfig where
  user : String
  password : String
  database : Option String
  deriving DecidableEq, Repr

/-- `FileConfigInfo` from src/config.rs: the optional fields of the
persisted `dbranch.config.json` document. -/
structure FileConfigInfo where
  api_port : Option Nat
  proxy_port : Option Nat
  approach : Option Approach
  port_min : Option Nat
  port_max : Option Nat
  mount_point : Option String
  default_project : Option String
  postgres_config : Option PostgresConfig
  projects : Option (List String)
  deriving DecidableEq, Repr

/-- The recognized environment variables as `from_env` reads them:
`std::env::var(..).ok()` per variable. -/
structure EnvVars where
  dbranch_approach : Option String
  dbranch_api_port : Option String
  dbranch_proxy_port : Option String
  dbranch_port_start : Option String
  dbranch_port_end : Option String
  dbranch_mount_point : Option String
  dbranch_default_project : Option String
  deriving DecidableEq, Repr

/-- `Config` from src/config.rs (paths kept as strings). -/
structure Config where
  path : String
  config_path : String
  approach : Approach
  api_port : Nat
  proxy_port : Nat
  port_range : Nat × Nat
  mount_point : String
  default_project : Option String
  postgres_config : PostgresConfig
  projects : List String
  deriving DecidableEq, Repr

/-- Decimal digit accumulation for `parse_u16`. -/
def parse_digits : List Char → Nat → Option Nat
  | [], acc => some acc
  | ch :: rest, acc =>
    if ch.isDigit then parse_digits rest (acc * 10 + (ch.toNat - 48)) else none

/-- Rust `v.parse::<u16>().ok()`: decimal parse of a non-empty digit
string, rejecting values ≥ 2^16. -/
def parse_u16 (s : String) : Option Nat :=
  match s.toList with
  | [] => none
  | cs =>
    match parse_digits cs 0 with
    | some n => if n < 65536 then some n else none
    | none => none

/-- `Config::from_env` from src/config.rs: combine the file document `c`
with the environment.  Every field except `approach` takes the environment
value first, then the file value, then the built-in default; `approach`
takes the file value first (`c.approach.or_else(|| env ...)`), reading any
set `DBRANCH_APPROACH` other than EXISTING_DISK as NewDisk. -/
def config_from_env (path : String) (env : EnvVars) (c : FileConfigInfo) : Config :=
  { path := path,
    config_path := path ++ "/dbranch.config.json",
    approach := (c.approach.orElse (fun _ => env.dbranch_approach.map
      (fun v => if v == "EXISTING_DISK" then Approach.ExistingDisk
                else Approach.NewDisk))).getD Approach.NewDisk,
    api_port := ((env.dbranch_api_port.bind parse_u16).orElse
      (fun _ => c.api_port)).getD 8080,
    proxy_port := ((env.dbranch_proxy_port.bind parse_u16).orElse
      (fun _ => c.proxy_port)).getD 5432,
    port_range :=
      (((env.dbranch_port_start.bind parse_u16).orElse
          (fun _ => c.port_min)).getD 7000,
        ((env.dbranch_port_end.bind parse_u16).orElse
          (fun _ => c.port_max)).getD 7999),
    mount_point := (env.dbranch_mount_point.orElse
      (fun _ => c.mount_point)).getD "/mnt/dbranch",
    default_project := env.dbranch_default_project.orElse
      (fun _ => c.default_project),
    postgres_config := c.postgres_config.getD
      { user := "dbranch_user", password := "dbranch_pass", database := none },
    projects := c.projects.getD [] }

/-- The parse of the `"{}"` fallback content used by `from_file` when the
config file is absent: a `FileConfigInfo` with every field `None`. -/
def empty_file_config : FileConfigInfo :=
  { api_port := none, proxy_port := none, approach := none, port_min := none,
    port_max := none, mount_point := none, default_project := none,
    postgres_config := none, projects := none }

/-- An environment with none of the recognized variables set. -/
def empty_env : EnvVars :=
  { dbranch_approach := none, dbranch_api_port := none,
    dbranch_proxy_port := none, dbranch_port_start := none,
    dbranch_port_end := none, dbranch_mount_point := none,
    dbranch_default_project := none }

/-- `Config::from_file` from src/config.rs in the absent-file case: parse
`"{}"`, build the config via `from_env`, and write a new config file
populated from the parsed config's fields (`projects` written as `[]`).
Returns the loaded config and the document written to disk. -/
def config_from_file_absent (path : String) (env : EnvVars) :
    Config × FileConfigInfo :=
  let c := config_from_env path env empty_file_config
  (c,
    { api_port := some c.api_port,
      proxy_port := some c.proxy_port,
      approach := some c.approach,
      port_min := some c.port_range.1,
      port_max := some c.port_range.2,
      mount_point := some c.mount_point,
      default_project := c.default_project,
      postgres_config := some
        { user := c.postgres_config.user,
          password := c.postgres_config.password,
          database := c.postgres_config.database },
      projects := some [] })

/-- C8 (amended): with the config file absent and no environment overrides,
loading creates the file populated with the built-in defaults — proxy port
5432, API port 8080 (not 8000), port window 7000–7999, and mount root
/mnt/dbranch. -/
theorem config_from_file_absent_defaults (path : String) :
    (config_from_file_absent path empty_env).1.proxy_port = 5432 ∧
    (config_from_file_absent path empty_env).1.api_port = 8080 ∧
    (config_from_file_absent path empty_env).1.port_range = (7000, 7999) ∧
    (config_from_file_absent path empty_env).1.mount_point = "/mnt/dbranch" ∧
    (config_from_file_absent path empty_env).2.proxy_port = some 5432 ∧
    (config_from_file_absent path empty_env).2.api_port = some 8080 ∧
    (config_from_file_absent path empty_env).2.port_min = some 7000 ∧
    (config_from_file_absent path empty_env).2.port_max = some 7999 ∧
    (config_from_file_absent path empty_env).2.mount_point = some "/mnt/dbranch" := by
  refine ⟨rfl, rfl, rfl, rfl, rfl, rfl, rfl, rfl, rfl⟩

/-- Counterexample to C8 as stated: the built-in API-port default is 8080,
not 8000 (`from_env` line 144 of src/config.rs: `.unwrap_or(8080)`). -/
theorem config_api_port_default_counterexample :
    (config_from_env "/cfg" empty_env empty_file_config).api_port = 8080 ∧
    (config_from_env "/cfg" empty_env empty_file_config).api_port ≠ 8000 := by
  exact ⟨rfl, by decide⟩

/-- C9 (amended): for every recognized field except the provisioning
approach, the loaded value is the environment value when the variable is
set (and, for the numeric ports, parses as a u16), otherwise the file
value when present, otherwise the built-in default.  For `approach` the
precedence is reversed: the file value wins, the environment is consulted
only when the file omits the field (any set value other than EXISTING_DISK
reads as NewDisk), and the default is NewDisk. -/
theorem config_from_env_precedence (path : String) (env : EnvVars) (c : FileConfigInfo) :
    ((∀ s n, env.dbranch_api_port = some s → parse_u16 s = some n →
      (config_from_env path env c).api_port = n) ∧
    (env.dbranch_api_port.bind parse_u16 = none →
      (∀ v, c.api_port = some v → (config_from_env path env c).api_port = v) ∧
      (c.api_port = none → (config_from_env path env c).api_port = 8080))) ∧
    ((∀ s n, env.dbranch_proxy_port = some s → parse_u16 s = some n →
      (config_from_env path env c).proxy_port = n) ∧
    (env.dbranch_proxy_port.bind parse_u16 = none →
      (∀ v, c.proxy_port = some v → (config_from_env path env c).proxy_port = v) ∧
      (c.proxy_port = none → (config_from_env path env c).proxy_port = 5432))) ∧
    ((∀ s n, env.dbranch_port_start = some s → parse_u16 s = some n →
      (config_from_env path env c).port_range.1 = n) ∧
    (env.dbranch_port_start.bind parse_u16 = none →
      (∀ v, c.port_min = some v → (config_from_env path env c).port_range.1 = v) ∧
      (c.port_min = none → (config_from_env path env c).port_range.1 = 7000))) ∧
    ((∀ s n, env.dbranch_port_end = some s → parse_u16 s = some n →
      (config_from_env path env c).port_range.2 = n) ∧
    (env.dbranch_port_end.bind parse_u16 = none →
      (∀ v, c.port_max = some v → (config_from_env path env c).port_range.2 = v) ∧
      (c.port_max = none → (config_from_env path env c).port_range.2 = 7999))) ∧
    ((∀ s, env.dbranch_mount_point = some s →
      (config_from_env path env c).mount_point = s) ∧
    (env.dbranch_mount_point = none →
      (∀ v, c.mount_point = some v → (config_from_env path env c).mount_point = v) ∧
      (c.mount_point = none →
        (config_from_env path env c).mount_point = "/mnt/dbranch"))) ∧
    ((∀ s, env.dbranch_default_project = some s →
      (config_from_env path env c).default_project = some s) ∧
    (env.dbranch_default_project = none →
      (config_from_env path env c).default_project = c.default_project)) ∧
    ((∀ a, c.approach = some a → (config_from_env path env c).approach = a) ∧
    (c.approach = none → ∀ s, env.dbranch_approach = some s →
      (config_from_env path env c).approach =
        (if s == "EXISTING_DISK" then Approach.ExistingDisk else Approach.NewDisk)) ∧
    (c.approach = none → env.dbranch_approach = none →
      (config_from_env path env c).approach = Approach.NewDisk)) := by
  refine ⟨⟨?_, ?_⟩, ⟨?_, ?_⟩, ⟨?_, ?_⟩, ⟨?_, ?_⟩, ⟨?_, ?_⟩, ⟨?_, ?_⟩, ?_, ?_, ?_⟩
  · intro s n hs hn
    simp [config_from_env, hs, hn, Option.orElse]
  · intro hnone
    exact ⟨fun v hv => by simp [config_from_env, hnone, hv, Option.orElse],
      fun hv => by simp [config_from_env, hnone, hv, Option.orElse]⟩
  · intro s n hs hn
    simp [config_from_env, hs, hn, Option.orElse]
  · intro hnone
    exact ⟨fun v hv => by simp [config_from_env, hnone, hv, Option.orElse],
      fun hv => by simp [config_from_env, hnone, hv, Option.orElse]⟩
  · intro s n hs hn
    simp [config_from_env, hs, hn, Option.orElse]
  · intro hnone
    exact ⟨fun v hv => by simp [config_from_env, hnone, hv, Option.orElse],
      fun hv => by simp [config_from_env, hnone, hv, Option.orElse]⟩
  · intro s n hs hn
    simp [config_from_env, hs, hn, Option.orElse]
  · intro hnone
    exact ⟨fun v hv => by simp [config_from_env, hnone, hv, Option.orElse],
      fun hv => by simp [config_from_env, hnone, hv, Option.orElse]⟩
  · intro s hs
    simp [config_from_env, hs, Option.orElse]
  · intro hnone
    exact ⟨fun v hv => by simp [config_from_env, hnone, hv, Option.orElse],
      fun hv => by simp [config_from_env, hnone, hv, Option.orElse]⟩
  · intro s hs
    simp [config_from_env, hs, Option.orElse]
  · intro hnone
    simp [config_from_env, hnone, Option.orElse]
  · intro a ha
    simp [config_from_env, ha, Option.orElse]
  · intro hnone s hs
    simp [config_from_env, hnone, hs, Option.orElse]
  · intro hnone henv
    simp [config_from_env, hnone, henv, Option.orElse]

/-- Counterexample to C9 as stated: with `DBRANCH_APPROACH` set (to
NEW_DISK, which parses as `NewDisk`) while the file says EXISTING_DISK, the
loaded approach is `ExistingDisk` — the file value overrides the
environment for this field, contradicting env-over-file precedence. -/
theorem config_approach_env_ignored_counterexample :
    (config_from_env "/cfg"
        { empty_env with dbranch_approach := some "NEW_DISK" }
        { empty_file_config with approach := some Approach.ExistingDisk }).approach =
      Approach.ExistingDisk ∧
    (config_from_env "/cfg"
        { empty_env with dbranch_approach := some "NEW_DISK" }
        { empty_file_config with approach := some Approach.ExistingDisk }).approach ≠
      Approach.NewDisk := by
  exact ⟨rfl, by decide⟩

/-- Witness for C9: a set `DBRANCH_API_PORT=9000` overrides a file value of
8123, and with the approach absent from the file, `DBRANCH_APPROACH`
decides it. -/
theorem config_from_env_precedence_witness :
    (config_from_env "/cfg"
        { empty_env with dbranch_api_port := some "9000" }
        { empty_file_config with api_port := some 8123 }).api_port = 9000 ∧
    (config_from_env "/cfg"
        { empty_env with dbranch_approach := some "EXISTING_DISK" }
        empty_file_config).approach = Approach.ExistingDisk := by
  constructor
  · exact (config_from_env_precedence "/cfg"
      { empty_env with dbranch_api_port := some "9000" }
      { empty_file_config with api_port := some 8123 }).1.1 "9000" 9000 rfl rfl
  · have h := (config_from_env_precedence "/cfg"
      { empty_env with dbranch_approach := some "EXISTING_DISK" }
      empty_file_config).2.2.2.2.2.2.2.1 rfl "EXISTING_DISK" rfl
    simpa using h

/-! ### src/copy_ref.rs : `CopyRefOperator::copy_ref` over a CoW model -/

/-- A regular file as the CoW-filesystem model sees it: its byte content
and its on-disk extent list (the data FIEMAP reports). -/
structure CowFile where
  content : List Nat
  extents : List FiemapExtent
  deriving DecidableEq, Repr

/-- Modelled from the spec: the kernel side of `copy_file_range` on a
CoW-capable filesystem, which is not part of this repository.  When the
kernel reports `n` bytes copied and `n` covers the whole source, the
destination shares the source's extents and the SHARED flag is set on the
copied extents of both files (spec §4.2 guarantee / §8 invariant 4).  A
partial copy (`n` short of the source length, which `copy_file_range` may
legally report) leaves the destination holding only the first `n` source
bytes; its extent layout after a partial copy is immaterial to the theorems
below. -/
def set_shared (e : FiemapExtent) : FiemapExtent :=
  { e with fe_flags := e.fe_flags ||| FiemapFlags.shared.bits }

def copy_file_range_model (src dst : CowFile) (n : Nat) : CowFile × CowFile :=
  if n = src.content.length then
    ({ src with extents := src.extents.map set_shared },
      { content := src.content, extents := src.extents.map set_shared })
  else
    (src, { content := src.content.take n, extents := dst.extents })

/-- `CopyRefOperator::copy_ref` from src/copy_ref.rs (the Linux path):
invoke `copy_file_range` once for the full source length with both offsets
0; `ret = none` models the -1 error return, `ret = some n` models `n`
bytes copied.  The code checks only `ret == -1` and returns `Ok(())`
otherwise, so a short copy still succeeds. -/
def copy_ref (src dst : CowFile) (ret : Option Nat) :
    Except AppError (CowFile × CowFile) :=
  match ret with
  | none => .error (.FileSystem "Failed to copy ref")
  | some n => .ok (copy_file_range_model src dst n)

/-- Modelled from the spec: the FIEMAP kernel responses for a file whose
on-disk extent list is `em` (the kernel is not part of this repository) —
each request maps up to 32 of the extents that end beyond the requested
start offset. -/
def fiemap_oracle (em : List FiemapExtent) : FiemapKernel :=
  fun fm_start _fm_length =>
    .ok ((em.filter (fun e => decide (fm_start < e.fe_logical + e.fe_length))).take 32)

theorem or_shared_bit (x : Nat) :
    (x ||| FiemapFlags.shared.bits) &&& FiemapFlags.shared.bits ≠ 0 := by
  intro h
  have hb : ((x ||| FiemapFlags.shared.bits) &&&
      FiemapFlags.shared.bits).testBit 13 = false := by
    rw [h]
    exact Nat.zero_testBit 13
  rw [Nat.testBit_land, Nat.testBit_lor] at hb
  have hs : (FiemapFlags.shared.bits).testBit 13 = true := by decide
  simp [hs] at hb

theorem shared_mem_from_bits (flags : Nat)
    (h : flags &&& FiemapFlags.shared.bits ≠ 0) :
    FiemapFlags.shared ∈ FiemapFlags.from_bits flags := by
  unfold FiemapFlags.from_bits
  simp [h]

/-- C1 (amended): when `copy_ref` succeeds having transferred the full
source length on a CoW-capable filesystem, the destination's bytes equal
the source's, the two files' extent lists coincide with the SHARED flag
set on every copied extent, and consequently `check_file` returns
identical extent lists for both files, every returned record carrying the
SHARED flag. -/
theorem copy_ref_full_transfer_spec (src dst src' dst' : CowFile)
    (h : copy_ref src dst (some src.content.length) = .ok (src', dst')) :
    dst'.content = src'.content ∧
    dst'.extents = src'.extents ∧
    (∀ e ∈ dst'.extents, e.fe_flags &&& FiemapFlags.shared.bits ≠ 0) ∧
    (∀ fuel, check_file (fiemap_oracle src'.extents) src'.content.length fuel =
      check_file (fiemap_oracle dst'.extents) dst'.content.length fuel) ∧
    (∀ fuel res calls,
      check_file (fiemap_oracle dst'.extents) dst'.content.length fuel =
        .ok (some (res, calls)) →
      ∀ f ∈ res, FiemapFlags.shared ∈ f.flags) := by
  rw [copy_ref, copy_file_range_model, if_pos rfl] at h
  injection h with h
  cases h
  refine ⟨rfl, rfl, ?_, fun _ => rfl, ?_⟩
  · intro e he
    obtain ⟨e', _, he'⟩ := List.mem_map.mp he
    subst he'
    exact or_shared_bit e'.fe_flags
  · intro fuel res calls hcf f hf
    rw [check_file] at hcf
    dsimp only at hcf
    by_cases hz : src.content.length = 0
    · rw [if_pos hz] at hcf
      obtain ⟨hres, _⟩ : res = [] ∧ calls = [] := by
        simpa [and_comm, eq_comm] using hcf
      subst hres
      simp at hf
    · rw [if_neg hz] at hcf
      have hQ := check_file_loop_flags
        (fiemap_oracle (src.extents.map set_shared))
        _ (fun e => e.fe_flags &&& FiemapFlags.shared.bits ≠ 0) ?_ fuel 0 res calls hcf f hf
      · exact hQ.2 ▸ shared_mem_from_bits _ hQ.1
      · intro s l r hr e he
        rw [fiemap_oracle] at hr
        injection hr with hr
        subst hr
        have hmem : e ∈ src.extents.map set_shared :=
          List.mem_of_mem_filter (List.take_subset _ _ he)
        obtain ⟨e', _, he'⟩ := List.mem_map.mp hmem
        subst he'
        exact or_shared_bit e'.fe_flags

/-- Counterexample to C1 as stated: a legal short `copy_file_range` result
(1 of 2 bytes) still makes `copy_ref` return `Ok`, yet the destination's
bytes are a strict prefix of the source's. -/
theorem copy_ref_short_copy_counterexample :
    copy_ref ⟨[7, 8], [⟨0, 0, 2, FiemapFlags.last.bits⟩]⟩ ⟨[], []⟩ (some 1) =
      .ok (⟨[7, 8], [⟨0, 0, 2, FiemapFlags.last.bits⟩]⟩, ⟨[7], []⟩) ∧
    ([7] : List Nat) ≠ [7, 8] := by
  exact ⟨rfl, by decide⟩

/-- Witness for C1 at a concrete one-extent file: the full-length transfer
yields a destination with identical bytes and identical, SHARED-flagged
extents. -/
theorem copy_ref_full_transfer_spec_witness :
    (⟨[9], [⟨0, 0, 1, FiemapFlags.last.bits ||| FiemapFlags.shared.bits⟩]⟩ :
        CowFile).content =
      (⟨[9], [⟨0, 0, 1, FiemapFlags.last.bits ||| FiemapFlags.shared.bits⟩]⟩ :
        CowFile).content ∧
    copy_ref ⟨[9], [⟨0, 0, 1, FiemapFlags.last.bits⟩]⟩ ⟨[], []⟩ (some 1) =
      .ok (⟨[9], [⟨0, 0, 1, FiemapFlags.last.bits ||| FiemapFlags.shared.bits⟩]⟩,
        ⟨[9], [⟨0, 0, 1, FiemapFlags.last.bits ||| FiemapFlags.shared.bits⟩]⟩) := by
  have h := copy_ref_full_transfer_spec
    ⟨[9], [⟨0, 0, 1, FiemapFlags.last.bits⟩]⟩ ⟨[], []⟩
    ⟨[9], [⟨0, 0, 1, FiemapFlags.last.bits ||| FiemapFlags.shared.bits⟩]⟩
    ⟨[9], [⟨0, 0, 1, FiemapFlags.last.bits ||| FiemapFlags.shared.bits⟩]⟩
    rfl
  exact ⟨h.1, rfl⟩

end Dbranch
